import Mathlib

/-!
Verification of the UART calculator (src/calc/src/main.c) against its
specification. The C code is shallowly embedded: C strings are lists of
characters followed by an explicit null terminator, a C pointer into a
buffer is the list suffix it points to, and a read past the end of the
buffer is modelled by Option (none marks the undefined behavior).
-/

/-- Error codes of the error enum in main.c. -/
def ERR_NONE : Int := 0

/-- Error code for a malformed expression. -/
def ERR_INVALID_EXPR : Int := -1

/-- Error code for division by zero. -/
def ERR_ZERO_DIV : Int := -2

/-- The C null character, terminator of C strings. -/
def cNull : Char := Char.ofNat 0

/-- C isspace in the default locale: space, tab, newline, vertical tab,
form feed, carriage return. -/
def isspace (c : Char) : Bool :=
  c = ' ' || c = '\t' || c = '\n' || c = Char.ofNat 11 || c = Char.ofNat 12 || c = '\r'

/-- Smallest value of the 32-bit int (and long) of the target. -/
def INT_MIN : Int := -(2 ^ 31)

/-- Largest value of the 32-bit int (and long) of the target. -/
def INT_MAX : Int := 2 ^ 31 - 1

/-- Reduction of an integer to 32-bit two's-complement. -/
def wrap32 (x : Int) : Int := (x + 2 ^ 31) % 2 ^ 32 - 2 ^ 31

/-- Clamping performed by strtol when the parsed value exceeds the range
of long (32 bits on the target). -/
def clampLong (x : Int) : Int :=
  if x < INT_MIN then INT_MIN else if INT_MAX < x then INT_MAX else x

/-- Advance a pointer over isspace characters. The pointer is the list
suffix it points to; none models a read past the end of the buffer. -/
def skipSpaces : List Char → Option (List Char)
  | [] => none
  | c :: r => if isspace c then skipSpaces r else some (c :: r)

/-- Consume decimal digits, accumulating their value; stops at the first
character that is not a digit and returns the accumulated value with the
rest of the buffer; none models a read past the end of the buffer. -/
def readDigits : List Char → Nat → Option (Nat × List Char)
  | [], _ => none
  | c :: r, acc =>
    if c.isDigit then readDigits r (10 * acc + (c.toNat - 48)) else some (acc, c :: r)

/-- Continuation of strtol after the whitespace skip: read an optional
sign and then decimal digits from the current pointer; s is the original
pointer, returned as endptr when no digit is consumed. -/
def strtolAfter (s : List Char) : List Char → Option (Int × List Char)
  | [] => none
  | c :: r =>
    let sign : Int := if c = '-' then -1 else 1
    let u : List Char := if c = '-' then r else if c = '+' then r else c :: r
    match readDigits u 0 with
    | none => none
    | some (v, rest) =>
      if rest.length = u.length then some (0, s)
      else some (clampLong (sign * v), rest)

/-- C strtol(s, &endptr, 10): skip whitespace, read an optional sign and
then decimal digits. If no digit is consumed the value is 0 and endptr is
the original pointer; otherwise the value (clamped to the range of long)
and the position after the last digit are returned. none models a read
past the end of the buffer. -/
def strtol (s : List Char) : Option (Int × List Char) :=
  match skipSpaces s with
  | none => none
  | some t => strtolAfter s t

/-- Outcome of a run of eval_expression in the total embedding: the
returned error code together with the final value of the int that the
result pointer points to, or a read past the end of the buffer
(undefined behavior in the C original). -/
inductive EvalOut where
  | ret (code : Int) (result : Int)
  | oob
  deriving DecidableEq

/-- The function perform_operation of main.c: applies the operator to the
two operands, writing through the result pointer only on success. C int
arithmetic is modelled as 32-bit two's-complement wraparound, with
division and remainder truncated toward zero. The first component is the
returned error code, the second the final value of the result variable
(whose value on entry is the last argument). -/
def perform_operation (operand1 operand2 : Int) (operator : Char) (result : Int) : Int × Int :=
  if operator = '+' then (ERR_NONE, wrap32 (operand1 + operand2))
  else if operator = '-' then (ERR_NONE, wrap32 (operand1 - operand2))
  else if operator = '*' then (ERR_NONE, wrap32 (operand1 * operand2))
  else if operator = '/' then
    if operand2 ≠ 0 then (ERR_NONE, wrap32 (Int.tdiv operand1 operand2))
    else (ERR_ZERO_DIV, result)
  else if operator = '%' then
    if operand2 ≠ 0 then (ERR_NONE, wrap32 (Int.tmod operand1 operand2))
    else (ERR_ZERO_DIV, result)
  else (ERR_INVALID_EXPR, result)

/-- The function eval_expression of main.c, acting on the null-terminated
buffer line ++ [cNull]; result0 is the value of the int that the result
pointer points to on entry. The no-progress checks compare the lengths of
the current pointer and of endptr, which is what the strlen comparison of
the source computes on these suffixes. -/
def eval_expression (line : List Char) (result0 : Int) : EvalOut :=
  let expr := line ++ [cNull]
  match strtol expr with
  | none => .oob
  | some (operand1, e1) =>
    if e1.length = expr.length then .ret ERR_INVALID_EXPR result0
    else
      match skipSpaces e1 with
      | none => .oob
      | some [] => .oob
      | some (operator :: e2) =>
        match strtol e2 with
        | none => .oob
        | some (operand2, e3) =>
          if e3.length = e2.length then .ret ERR_INVALID_EXPR result0
          else
            match skipSpaces e3 with
            | none => .oob
            | some [] => .oob
            | some (c :: _) =>
              if c ≠ cNull then .ret ERR_INVALID_EXPR result0
              else
                let pr := perform_operation operand1 operand2 operator result0
                .ret pr.1 pr.2

/-- MSG_SIZE from main.c: size of the receive buffer and of a queue slot. -/
def MSG_SIZE : Nat := 32

/-- State touched by serial_cb: the receive buffer rx_buf with its cursor
rx_buf_pos, the message queue uart_msgq (each message a 32-byte snapshot
of rx_buf, oldest first), and the sequence of bytes echoed to the UART. -/
structure RxState where
  rx_buf : List Char
  rx_buf_pos : Nat
  uart_msgq : List (List Char)
  echoed : List Char
  deriving DecidableEq

/-- One iteration of the FIFO-read loop of serial_cb for a received byte c,
instrumented with the list of (index, byte) stores performed on rx_buf.
A line terminator with an empty buffer is ignored; otherwise a terminator
writes the null, echoes CRLF and enqueues the buffer (k_msgq_put with
K_NO_WAIT drops the message when the 10-slot queue is full); a data byte
is stored and echoed while the cursor is below MSG_SIZE - 1 and is
silently discarded otherwise. -/
def serial_cb_writes (s : RxState) (c : Char) : List (Nat × Char) × RxState :=
  if c = '\n' ∨ c = '\r' then
    if s.rx_buf_pos = 0 then ([], s)
    else
      let buf := s.rx_buf.set s.rx_buf_pos cNull
      ([(s.rx_buf_pos, cNull)],
       { rx_buf := buf
         rx_buf_pos := 0
         uart_msgq := if s.uart_msgq.length < 10 then s.uart_msgq ++ [buf] else s.uart_msgq
         echoed := s.echoed ++ ['\r', '\n'] })
  else if s.rx_buf_pos < MSG_SIZE - 1 then
    ([(s.rx_buf_pos, c)],
     { rx_buf := s.rx_buf.set s.rx_buf_pos c
       rx_buf_pos := s.rx_buf_pos + 1
       uart_msgq := s.uart_msgq
       echoed := s.echoed ++ [c] })
  else ([], s)

/-- Processing of one received byte by serial_cb. -/
def serial_cb (s : RxState) (c : Char) : RxState := (serial_cb_writes s c).2

/-- serial_cb over a sequence of received bytes, in arrival order. -/
def runBytes (s : RxState) (bs : List Char) : RxState := bs.foldl serial_cb s

/-- State at boot: the static rx_buf and rx_buf_pos are zero-initialized,
the queue is empty, nothing has been echoed. -/
def initState : RxState := ⟨List.replicate MSG_SIZE cNull, 0, [], []⟩

/-- The string content of a queued 32-byte message: the bytes before the
null terminator, as the consumer reads the message as a C string. -/
def cString (m : List Char) : List Char := m.takeWhile (fun b => b ≠ cNull)

/-- The three user-visible responses of the driving loop, standing for
the output lines Result: r, Division by zero! and Invalid expression!. -/
inductive Response where
  | result (r : Int)
  | zeroDiv
  | invalidExpr
  deriving DecidableEq

/-- Body of the driving loop of main as written: result starts at 0, and
eval_expression is called a second time on the same line whenever the
first call did not return ERR_NONE. none marks a run with a read past the
end of the buffer. -/
def loop_body (line : List Char) : Option Response :=
  match eval_expression line 0 with
  | .oob => none
  | .ret code r =>
    if code = ERR_NONE then some (.result r)
    else
      match eval_expression line r with
      | .oob => none
      | .ret code2 _ =>
        if code2 = ERR_ZERO_DIV then some .zeroDiv else some .invalidExpr

/-- Follows the specification redesign for the refinement claim: a driving
loop body that evaluates the line once and inspects the three-way tagged
outcome. -/
def loop_body_single (line : List Char) : Option Response :=
  match eval_expression line 0 with
  | .oob => none
  | .ret code r =>
    if code = ERR_NONE then some (.result r)
    else if code = ERR_ZERO_DIV then some .zeroDiv
    else some .invalidExpr

/-- Decimal digit characters of a natural number, most significant first. -/
def renderNat (n : Nat) : List Char :=
  if n = 0 then ['0'] else ((Nat.digits 10 n).reverse.map Nat.digitChar)

/-- Decimal rendering of an integer, the form strtol parses back. -/
def renderInt (a : Int) : List Char :=
  if a < 0 then '-' :: renderNat a.natAbs else renderNat a.toNat

/-- A digit character is not a whitespace character. -/
lemma isDigit_not_isspace {c : Char} (h : c.isDigit = true) : isspace c = false := by
  by_contra hs
  rw [Bool.not_eq_false] at hs
  simp only [isspace, Bool.or_eq_true, decide_eq_true_eq] at hs
  rcases hs with ((((hc | hc) | hc) | hc) | hc) | hc <;> subst hc <;> exact absurd h (by decide)

/-- A digit character is not the minus sign. -/
lemma isDigit_ne_dash {c : Char} (h : c.isDigit = true) : c ≠ '-' := by
  intro hc; subst hc; exact absurd h (by decide)

/-- A digit character is not the plus sign. -/
lemma isDigit_ne_plus {c : Char} (h : c.isDigit = true) : c ≠ '+' := by
  intro hc; subst hc; exact absurd h (by decide)

/-- Nat.digitChar of a digit below ten is a digit character. -/
lemma digitChar_isDigit {d : Nat} (hd : d < 10) : (Nat.digitChar d).isDigit = true := by
  interval_cases d <;> decide

/-- Character-code arithmetic recovers the digit from Nat.digitChar. -/
lemma digitChar_toNat {d : Nat} (hd : d < 10) : (Nat.digitChar d).toNat - 48 = d := by
  interval_cases d <;> decide

/-- skipSpaces jumps over a block of whitespace characters. -/
lemma skipSpaces_append {sp : List Char} (x : List Char) (h : ∀ c ∈ sp, isspace c = true) :
    skipSpaces (sp ++ x) = skipSpaces x := by
  induction sp with
  | nil => rfl
  | cons c r ih =>
    have hc : isspace c = true := h c (List.mem_cons_self c r)
    simp [skipSpaces, hc, ih (fun b hb => h b (List.mem_cons_of_mem c hb))]

/-- skipSpaces stops at a character that is not whitespace. -/
lemma skipSpaces_nonspace {c : Char} (x : List Char) (h : isspace c = false) :
    skipSpaces (c :: x) = some (c :: x) := by
  simp [skipSpaces, h]

/-- readDigits consumes a block of digit characters and stops at the next
character, folding the digits into the accumulator. -/
lemma readDigits_append {ds : List Char} {c0 : Char} (r' : List Char) (acc : Nat)
    (hds : ∀ c ∈ ds, c.isDigit = true) (hc0 : c0.isDigit = false) :
    readDigits (ds ++ c0 :: r') acc =
      some (ds.foldl (fun a c => 10 * a + (c.toNat - 48)) acc, c0 :: r') := by
  induction ds generalizing acc with
  | nil => simp [readDigits, hc0]
  | cons d ds ih =>
    have hd : d.isDigit = true := hds d (List.mem_cons_self d ds)
    simp only [List.cons_append, readDigits, hd, if_true, List.foldl_cons]
    exact ih _ (fun c hc => hds c (List.mem_cons_of_mem d hc))

/-- renderNat always produces at least one character. -/
lemma renderNat_ne_nil (n : Nat) : renderNat n ≠ [] := by
  unfold renderNat
  split
  · simp
  · next h =>
    simp only [ne_eq, List.map_eq_nil_iff, List.reverse_eq_nil_iff]
    exact Nat.digits_ne_nil_iff_ne_zero.mpr h

/-- Every character of renderNat is a digit character. -/
lemma renderNat_digits {n : Nat} : ∀ c ∈ renderNat n, c.isDigit = true := by
  intro c hc
  unfold renderNat at hc
  split at hc
  · rw [List.mem_singleton] at hc; subst hc; decide
  · rcases List.mem_map.mp hc with ⟨d, hd, rfl⟩
    exact digitChar_isDigit (Nat.digits_lt_base (by norm_num) (List.mem_reverse.mp hd))

/-- Folding digit characters through Nat.digitChar is folding the digits. -/
lemma foldl_digitChar {l : List Nat} (acc : Nat) (h : ∀ d ∈ l, d < 10) :
    (l.map Nat.digitChar).foldl (fun a c => 10 * a + (c.toNat - 48)) acc =
      l.foldl (fun a d => 10 * a + d) acc := by
  induction l generalizing acc with
  | nil => rfl
  | cons d l ih =>
    simp only [List.map_cons, List.foldl_cons]
    rw [digitChar_toNat (h d (List.mem_cons_self d l))]
    exact ih _ (fun e he => h e (List.mem_cons_of_mem d he))

/-- The big-endian digit fold computes Nat.ofDigits of the digit list. -/
lemma foldr_ofDigits (L : List Nat) :
    L.foldr (fun d a => 10 * a + d) 0 = Nat.ofDigits 10 L := by
  induction L with
  | nil => simp
  | cons d L ih => simp only [List.foldr_cons, Nat.ofDigits_cons, ih]; ring

/-- The value parse of the rendered digits of n recovers n. -/
lemma renderNat_foldl (n : Nat) :
    (renderNat n).foldl (fun a c => 10 * a + (c.toNat - 48)) 0 = n := by
  unfold renderNat
  split
  · next h => subst h; decide
  · rw [foldl_digitChar 0 (fun d hd => Nat.digits_lt_base (by norm_num) (List.mem_reverse.mp hd))]
    rw [List.foldl_reverse, foldr_ofDigits]
    exact Nat.ofDigits_digits 10 n

/-- clampLong is the identity on the 32-bit range. -/
lemma clampLong_eq {a : Int} (h1 : INT_MIN ≤ a) (h2 : a ≤ INT_MAX) : clampLong a = a := by
  unfold clampLong
  rw [if_neg (not_lt.mpr h1), if_neg (not_lt.mpr h2)]

/-- Value of a block of digit characters, most significant first. -/
def digitsVal (ds : List Char) : Nat := ds.foldl (fun a c => 10 * a + (c.toNat - 48)) 0

/-- renderNat renders the digits of its argument. -/
lemma digitsVal_renderNat (n : Nat) : digitsVal (renderNat n) = n := by
  unfold digitsVal renderNat
  split
  · next h => subst h; decide
  · rw [foldl_digitChar 0 (fun d hd => Nat.digits_lt_base (by norm_num) (List.mem_reverse.mp hd))]
    rw [List.foldl_reverse, foldr_ofDigits]
    exact Nat.ofDigits_digits 10 n

/-- strtolAfter on a minus sign followed by digits. -/
lemma strtolAfter_dash (s : List Char) {ds : List Char} {c0 : Char} (r' : List Char)
    (hne : ds ≠ []) (hds : ∀ c ∈ ds, c.isDigit = true) (hc0 : c0.isDigit = false) :
    strtolAfter s ('-' :: (ds ++ c0 :: r')) =
      some (clampLong (-(digitsVal ds : Int)), c0 :: r') := by
  have hlen : ¬ ((c0 :: r').length = (ds ++ c0 :: r').length) := by
    simp only [List.length_append]
    have h0 : ds.length ≠ 0 := fun h => hne (List.length_eq_zero.mp h)
    omega
  simp only [strtolAfter, eq_self_iff_true, if_true]
  rw [readDigits_append r' 0 hds hc0]
  simp only [hlen, if_false, neg_one_mul, digitsVal]

/-- strtolAfter on digits with no sign. -/
lemma strtolAfter_digits (s : List Char) {ds : List Char} {c0 : Char} (r' : List Char)
    (hne : ds ≠ []) (hds : ∀ c ∈ ds, c.isDigit = true) (hc0 : c0.isDigit = false) :
    strtolAfter s (ds ++ c0 :: r') =
      some (clampLong (digitsVal ds : Int), c0 :: r') := by
  rcases ds with _ | ⟨d, ds⟩
  · exact absurd rfl hne
  · have hd : d.isDigit = true := hds d (List.mem_cons_self d ds)
    have hlen : ¬ ((c0 :: r').length = (d :: (ds ++ c0 :: r')).length) := by
      simp only [List.length_cons, List.length_append]
      omega
    simp only [List.cons_append, strtolAfter, if_neg (isDigit_ne_dash hd),
      if_neg (isDigit_ne_plus hd)]
    rw [show d :: (ds ++ c0 :: r') = (d :: ds) ++ c0 :: r' from rfl,
      readDigits_append r' 0 hds hc0]
    simp only [List.cons_append]
    simp only [hlen, if_false, one_mul, digitsVal]

/-- strtol reduces to strtolAfter once the whitespace skip is resolved. -/
lemma strtol_eq_after {s t : List Char} (h : skipSpaces s = some t) :
    strtol s = strtolAfter s t := by
  unfold strtol
  rw [h]

/-- strtol on optional whitespace followed by the rendering of an integer
in the long range parses back exactly that integer, leaving the following
text (which must not begin with a digit) as endptr. -/
lemma strtol_render (sp : List Char) (a : Int) {c0 : Char} (r' : List Char)
    (hsp : ∀ c ∈ sp, isspace c = true)
    (ha1 : INT_MIN ≤ a) (ha2 : a ≤ INT_MAX)
    (hc0 : c0.isDigit = false) :
    strtol (sp ++ (renderInt a ++ c0 :: r')) = some (a, c0 :: r') := by
  rcases lt_or_le a 0 with hneg | hpos
  · have hri : renderInt a = '-' :: renderNat a.natAbs := by simp [renderInt, hneg]
    have hskip : skipSpaces (sp ++ (renderInt a ++ c0 :: r')) =
        some ('-' :: (renderNat a.natAbs ++ c0 :: r')) := by
      rw [skipSpaces_append _ hsp, hri, List.cons_append, skipSpaces_nonspace _ (by decide)]
    rw [strtol_eq_after hskip,
      strtolAfter_dash _ r' (renderNat_ne_nil _) renderNat_digits hc0, digitsVal_renderNat]
    have hcast : (-(a.natAbs : Int)) = a := by omega
    rw [hcast, clampLong_eq ha1 ha2]
  · have hri : renderInt a = renderNat a.toNat := by simp [renderInt, not_lt.mpr hpos]
    obtain ⟨d, ds, hrn⟩ : ∃ d ds, renderNat a.toNat = d :: ds := by
      rcases h : renderNat a.toNat with _ | ⟨d, ds⟩
      · exact absurd h (renderNat_ne_nil _)
      · exact ⟨d, ds, rfl⟩
    have hd : d.isDigit = true := renderNat_digits d (by rw [hrn]; exact List.mem_cons_self d ds)
    have hds : ∀ c ∈ (d :: ds), c.isDigit = true := by rw [← hrn]; exact renderNat_digits
    have hskip : skipSpaces (sp ++ (renderInt a ++ c0 :: r')) =
        some ((d :: ds) ++ c0 :: r') := by
      rw [skipSpaces_append _ hsp, hri, hrn, List.cons_append,
        skipSpaces_nonspace _ (isDigit_not_isspace hd)]
    rw [strtol_eq_after hskip, strtolAfter_digits _ r' (by simp) hds hc0]
    have hfold : digitsVal (d :: ds) = a.toNat := by
      rw [← hrn]
      exact digitsVal_renderNat a.toNat
    have hcast : ((a.toNat : Nat) : Int) = a := by omega
    rw [hfold, hcast, clampLong_eq ha1 ha2]

/-- renderInt always produces at least one character. -/
lemma renderInt_ne_nil (a : Int) : renderInt a ≠ [] := by
  unfold renderInt
  split
  · simp
  · exact renderNat_ne_nil _

/-- Canonical expression line: the two operands rendered in decimal with
single spaces around the operator. -/
def canonLine (a : Int) (op : Char) (b : Int) : List Char :=
  renderInt a ++ ' ' :: op :: ' ' :: renderInt b

/-- eval_expression on a canonical line parses the two operands and the
operator and hands them to perform_operation. -/
lemma eval_canon (a b : Int) (op : Char) (r0 : Int)
    (ha1 : INT_MIN ≤ a) (ha2 : a ≤ INT_MAX) (hb1 : INT_MIN ≤ b) (hb2 : b ≤ INT_MAX)
    (hop : isspace op = false) :
    eval_expression (canonLine a op b) r0 =
      .ret (perform_operation a b op r0).1 (perform_operation a b op r0).2 := by
  have hlena : (renderInt a).length ≠ 0 :=
    fun h => renderInt_ne_nil a (List.length_eq_zero.mp h)
  have hlenb : (renderInt b).length ≠ 0 :=
    fun h => renderInt_ne_nil b (List.length_eq_zero.mp h)
  have h1 : strtol (canonLine a op b ++ [cNull]) =
      some (a, ' ' :: (op :: ' ' :: (renderInt b ++ [cNull]))) := by
    rw [show canonLine a op b ++ [cNull] =
      renderInt a ++ ' ' :: (op :: ' ' :: (renderInt b ++ [cNull])) from by simp [canonLine]]
    exact strtol_render [] a _ (by simp) ha1 ha2 (by decide)
  have h2 : ¬ ((' ' :: (op :: ' ' :: (renderInt b ++ [cNull]))).length =
      (canonLine a op b ++ [cNull]).length) := by
    simp only [canonLine, List.length_cons, List.length_append, List.length_singleton]
    omega
  have h3 : skipSpaces (' ' :: (op :: ' ' :: (renderInt b ++ [cNull]))) =
      some (op :: (' ' :: (renderInt b ++ [cNull]))) := by
    rw [show skipSpaces (' ' :: (op :: ' ' :: (renderInt b ++ [cNull]))) =
      skipSpaces (op :: ' ' :: (renderInt b ++ [cNull])) from by simp [skipSpaces, isspace]]
    exact skipSpaces_nonspace _ hop
  have h4 : strtol (' ' :: (renderInt b ++ [cNull])) = some (b, [cNull]) := by
    exact strtol_render [' '] b [] (by decide) hb1 hb2 (by decide)
  have h5 : ¬ (([cNull] : List Char).length = (' ' :: (renderInt b ++ [cNull])).length) := by
    simp only [List.length_singleton, List.length_cons, List.length_append]
    omega
  have h6 : skipSpaces [cNull] = some [cNull] := skipSpaces_nonspace _ (by decide)
  simp only [eval_expression, h1, h2, h3, h4, h5, h6, if_false]
  rw [if_neg (by simp)]

/-- perform_operation leaves the result variable unchanged whenever it
returns an error. -/
lemma perform_operation_err {a b : Int} {op : Char} {r0 : Int}
    (h : (perform_operation a b op r0).1 ≠ ERR_NONE) :
    (perform_operation a b op r0).2 = r0 := by
  unfold perform_operation at *
  split at h
  · exact absurd rfl h
  · split at h
    · exact absurd rfl h
    · split at h
      · exact absurd rfl h
      · split at h
        · split at h
          · exact absurd rfl h
          · simp_all
        · split at h
          · split at h
            · exact absurd rfl h
            · simp_all
          · simp_all

/-- eval_expression writes through its result pointer only on the success
path: a returning run with a nonzero code leaves the result unchanged. -/
lemma eval_err_result {line : List Char} {r0 code r : Int}
    (h : eval_expression line r0 = .ret code r) (hc : code ≠ ERR_NONE) :
    r = r0 := by
  unfold eval_expression at h
  dsimp only [] at h
  split at h
  · exact absurd h (by simp)
  · split at h
    · exact (EvalOut.ret.inj h).2.symm
    · split at h
      · exact absurd h (by simp)
      · exact absurd h (by simp)
      · split at h
        · exact absurd h (by simp)
        · split at h
          · exact (EvalOut.ret.inj h).2.symm
          · split at h
            · exact absurd h (by simp)
            · exact absurd h (by simp)
            · split at h
              · exact (EvalOut.ret.inj h).2.symm
              · obtain ⟨h1, h2⟩ := EvalOut.ret.inj h
                subst h1 h2
                exact perform_operation_err hc

/-- runBytes peels the last byte. -/
lemma runBytes_append (s : RxState) (bs : List Char) (c : Char) :
    runBytes s (bs ++ [c]) = serial_cb (runBytes s bs) c := by
  simp [runBytes, List.foldl_append]

/-- A line terminator arriving while the buffer is empty is ignored. -/
lemma serial_cb_term_empty {s : RxState} {c : Char}
    (h0 : s.rx_buf_pos = 0) (hc : c = '\n' ∨ c = '\r') : serial_cb s c = s := by
  unfold serial_cb serial_cb_writes
  rw [if_pos hc, if_pos h0]

/-- A data byte arriving while the cursor sits at capacity - 1 is
silently discarded: no store, no echo, no state change. -/
lemma serial_cb_discard {s : RxState} {c : Char}
    (h : s.rx_buf_pos = MSG_SIZE - 1) (h1 : c ≠ '\n') (h2 : c ≠ '\r') : serial_cb s c = s := by
  unfold serial_cb serial_cb_writes
  rw [if_neg (by tauto), if_neg (by omega)]

/-- Setting the slot just after a prefix replaces the head of the rest. -/
lemma set_append_cons {α : Type} (l : List α) (c : α) (m : List α) (b : α) :
    (l ++ c :: m).set l.length b = l ++ b :: m := by
  induction l with
  | nil => rfl
  | cons a l ih => simp [List.set, ih]

/-- Feeding only non-terminator bytes from boot: nothing is enqueued, the
cursor advances to at most 31, the buffer holds the first 31 bytes and
null padding, and exactly the stored bytes are echoed. -/
lemma feed_nonterm (bs : List Char) (h : ∀ b ∈ bs, b ≠ '\n' ∧ b ≠ '\r') :
    (runBytes initState bs).uart_msgq = [] ∧
    (runBytes initState bs).rx_buf_pos = min bs.length 31 ∧
    (runBytes initState bs).rx_buf =
      bs.take 31 ++ List.replicate (MSG_SIZE - min bs.length 31) cNull ∧
    (runBytes initState bs).echoed = bs.take 31 := by
  induction bs using List.reverseRecOn with
  | nil => simp [runBytes, initState, MSG_SIZE]
  | append_singleton bs b ih =>
    obtain ⟨hq, hp, hb, he⟩ := ih (fun x hx => h x (List.mem_append_left _ hx))
    obtain ⟨hbn, hbr⟩ := h b (List.mem_append_right _ (List.mem_singleton.mpr rfl))
    rw [runBytes_append]
    unfold serial_cb serial_cb_writes
    rw [if_neg (by tauto)]
    rcases lt_or_le bs.length 31 with hlt | hge
    · have hmin : min bs.length 31 = bs.length := by omega
      have htk : bs.take 31 = bs := List.take_of_length_le (by omega)
      rw [if_pos (by rw [hp, hmin]; simp [MSG_SIZE]; omega)]
      refine ⟨hq, ?_, ?_, ?_⟩
      · simp only [hp, hmin, List.length_append, List.length_singleton]
        omega
      · simp only [hb, hp, hmin, htk]
        rw [show MSG_SIZE - bs.length = (MSG_SIZE - (bs.length + 1)) + 1 from by
          simp [MSG_SIZE]; omega]
        rw [List.replicate_succ, set_append_cons]
        rw [List.take_of_length_le (by simp; omega)]
        simp only [List.length_append, List.length_singleton]
        rw [show min (bs.length + 1) 31 = bs.length + 1 from by omega]
        simp
      · simp only [he, htk]
        rw [List.take_of_length_le (by simp; omega)]
    · have hmin : min bs.length 31 = 31 := by omega
      rw [if_neg (by rw [hp, hmin]; simp [MSG_SIZE])]
      have htk : (bs ++ [b]).take 31 = bs.take 31 :=
        List.take_append_of_le_length hge
      refine ⟨hq, ?_, ?_, ?_⟩
      · simp only [hp, hmin, List.length_append, List.length_singleton]
        omega
      · rw [hb, htk]
        have hm2 : (bs ++ [b]).length ⊓ 31 = bs.length ⊓ 31 := by
          simp only [List.length_append, List.length_singleton]
          omega
        rw [hm2]
      · rw [he, htk]

/-- serial_cb keeps the cursor within 0..MSG_SIZE - 1. -/
lemma serial_cb_pos_le {s : RxState} (c : Char) (h : s.rx_buf_pos ≤ MSG_SIZE - 1) :
    (serial_cb s c).rx_buf_pos ≤ MSG_SIZE - 1 := by
  unfold serial_cb serial_cb_writes
  split
  · split
    · exact h
    · simp [MSG_SIZE]
  · split
    · next hlt => simpa using hlt
    · exact h

/-- From boot, the cursor never exceeds MSG_SIZE - 1. -/
lemma runBytes_pos_le (bs : List Char) :
    (runBytes initState bs).rx_buf_pos ≤ MSG_SIZE - 1 := by
  induction bs using List.reverseRecOn with
  | nil => simp [runBytes, initState]
  | append_singleton bs b ih =>
    rw [runBytes_append]
    exact serial_cb_pos_le b ih

/-- Every buffer store of serial_cb is in bounds while the cursor
invariant holds, and the last slot only ever receives the terminator. -/
lemma serial_cb_writes_bound {s : RxState} (c : Char) (h : s.rx_buf_pos ≤ MSG_SIZE - 1) :
    ∀ w ∈ (serial_cb_writes s c).1,
      w.1 < MSG_SIZE ∧ (w.1 = MSG_SIZE - 1 → w.2 = cNull) := by
  unfold serial_cb_writes
  split
  · split
    · simp
    · intro w hw
      rw [List.mem_singleton] at hw
      subst hw
      exact ⟨by simp [MSG_SIZE] at h ⊢; omega, fun _ => rfl⟩
  · split
    · next hlt =>
      intro w hw
      rw [List.mem_singleton] at hw
      subst hw
      exact ⟨by simp [MSG_SIZE] at hlt ⊢; omega, fun he => absurd he (by omega)⟩
    · simp

/-- C1: for every input line of the form a op b (operands rendered in
decimal, in the 32-bit int range, b nonzero for / and %), eval_expression
returns ERR_NONE and the exact result of the operation in 32-bit
two's-complement, division and remainder truncated toward zero with the
remainder sign following the first operand. -/
theorem C1_eval_exact (a b r0 : Int)
    (ha1 : INT_MIN ≤ a) (ha2 : a ≤ INT_MAX) (hb1 : INT_MIN ≤ b) (hb2 : b ≤ INT_MAX) :
    eval_expression (canonLine a '+' b) r0 = .ret ERR_NONE (wrap32 (a + b)) ∧
    eval_expression (canonLine a '-' b) r0 = .ret ERR_NONE (wrap32 (a - b)) ∧
    eval_expression (canonLine a '*' b) r0 = .ret ERR_NONE (wrap32 (a * b)) ∧
    (b ≠ 0 → eval_expression (canonLine a '/' b) r0 = .ret ERR_NONE (wrap32 (Int.tdiv a b))) ∧
    (b ≠ 0 → eval_expression (canonLine a '%' b) r0 = .ret ERR_NONE (wrap32 (Int.tmod a b))) := by
  refine ⟨?_, ?_, ?_, fun hb0 => ?_, fun hb0 => ?_⟩ <;>
    rw [eval_canon a b _ r0 ha1 ha2 hb1 hb2 (by decide)] <;>
    simp [perform_operation, *]

/-- Witness for C1 at 7 / 3. -/
theorem C1_eval_exact_witness :
    eval_expression (canonLine 7 '/' 3) 0 = .ret ERR_NONE (wrap32 (Int.tdiv 7 3)) :=
  (C1_eval_exact 7 3 0 (by decide) (by decide) (by decide) (by decide)).2.2.2.1 (by decide)

/-- C2: a line dividing by zero with / or % makes eval_expression fail
with ERR_ZERO_DIV (and so never with ERR_INVALID_EXPR); in particular
the lines 5 / 0 and 5 % 0 do. -/
theorem C2_zero_divisor (a r0 : Int) (ha1 : INT_MIN ≤ a) (ha2 : a ≤ INT_MAX) :
    eval_expression (canonLine a '/' 0) r0 = .ret ERR_ZERO_DIV r0 ∧
    eval_expression (canonLine a '%' 0) r0 = .ret ERR_ZERO_DIV r0 ∧
    eval_expression ("5 / 0".data) r0 = .ret ERR_ZERO_DIV r0 ∧
    eval_expression ("5 % 0".data) r0 = .ret ERR_ZERO_DIV r0 := by
  refine ⟨?_, ?_, rfl, rfl⟩ <;>
    rw [eval_canon a 0 _ r0 ha1 ha2 (by decide) (by decide) (by decide)] <;>
    simp [perform_operation]

/-- Witness for C2 at 5 / 0. -/
theorem C2_zero_divisor_witness :
    eval_expression (canonLine 5 '/' 0) 3 = .ret ERR_ZERO_DIV 3 :=
  (C2_zero_divisor 5 3 (by decide) (by decide)).1

/-- C3: eval_expression fails with ERR_INVALID_EXPR when the first
operand parse consumes no digits, when the second operand parse consumes
no digits, when the operator is none of the five supported ones, and when
non-whitespace text trails the second operand. -/
theorem C3_invalid_expression (a b r0 : Int) (op : Char)
    (ha1 : INT_MIN ≤ a) (ha2 : a ≤ INT_MAX) (hb1 : INT_MIN ≤ b) (hb2 : b ≤ INT_MAX)
    (hop : isspace op = false)
    (h1 : op ≠ '+') (h2 : op ≠ '-') (h3 : op ≠ '*') (h4 : op ≠ '/') (h5 : op ≠ '%') :
    eval_expression ("abc + 1".data) r0 = .ret ERR_INVALID_EXPR r0 ∧
    eval_expression ("5 + ".data) r0 = .ret ERR_INVALID_EXPR r0 ∧
    eval_expression ("5 ^ 3".data) r0 = .ret ERR_INVALID_EXPR r0 ∧
    eval_expression ("5 + 3 garbage".data) r0 = .ret ERR_INVALID_EXPR r0 ∧
    eval_expression (canonLine a op b) r0 = .ret ERR_INVALID_EXPR r0 := by
  refine ⟨rfl, rfl, rfl, rfl, ?_⟩
  rw [eval_canon a b op r0 ha1 ha2 hb1 hb2 hop]
  simp [perform_operation, h1, h2, h3, h4, h5]

/-- Witness for C3 with the unsupported operator of 5 ^ 3. -/
theorem C3_invalid_expression_witness :
    eval_expression (canonLine 5 '^' 3) 0 = .ret ERR_INVALID_EXPR 0 :=
  (C3_invalid_expression 5 3 0 '^' (by decide) (by decide) (by decide) (by decide)
    (by decide) (by decide) (by decide) (by decide) (by decide) (by decide)).2.2.2.2

/-- C4: on a line that ends right after the first operand the operator
parse consumes the terminator and the second operand parse reads past the
end of the buffer: the out-of-range branch of the total embedding is
reached, for the line 5 and also with trailing whitespace. -/
theorem C4_read_past_end (r0 : Int) :
    eval_expression ['5'] r0 = .oob ∧ eval_expression ("5  ".data) r0 = .oob :=
  ⟨rfl, rfl⟩

/-- C5: feeding the bytes of 12+3 CR LF one at a time from boot enqueues
exactly one completed line whose string content is 12+3; in general a
terminator arriving while the cursor is 0 leaves the state unchanged, so
CRLF never emits an empty line. -/
theorem C5_crlf_collapses :
    ((runBytes initState ("12+3\r\n".data)).uart_msgq.map cString = ["12+3".data]) ∧
    (∀ (s : RxState) (c : Char), s.rx_buf_pos = 0 → (c = '\n' ∨ c = '\r') →
      serial_cb s c = s) :=
  ⟨by decide, fun _ _ h0 hc => serial_cb_term_empty h0 hc⟩

/-- Witness for C5: the line feed of the CRLF pair is ignored at boot. -/
theorem C5_crlf_collapses_witness : serial_cb initState '\n' = initState :=
  C5_crlf_collapses.2 initState '\n' rfl (Or.inl rfl)

/-- C6: feeding 40 non-terminator bytes and then a line feed from boot
enqueues exactly one message holding the first 31 bytes followed by the
terminator, echoing only those 31 bytes; in general a byte arriving with
the cursor at capacity - 1 is silently discarded with no state change. -/
theorem C6_overflow_truncates (bs : List Char) (hlen : bs.length = 40)
    (h : ∀ b ∈ bs, b ≠ '\n' ∧ b ≠ '\r') :
    (runBytes initState (bs ++ ['\n'])).uart_msgq = [bs.take 31 ++ [cNull]] ∧
    (runBytes initState (bs ++ ['\n'])).echoed = bs.take 31 ++ ['\r', '\n'] ∧
    (∀ (s : RxState) (c : Char), s.rx_buf_pos = MSG_SIZE - 1 → c ≠ '\n' → c ≠ '\r' →
      serial_cb s c = s) := by
  obtain ⟨hq, hp, hb, he⟩ := feed_nonterm bs h
  have hp31 : (runBytes initState bs).rx_buf_pos = 31 := by
    rw [hp, hlen]
    omega
  have h31 : (bs.take 31).length = 31 := by
    rw [List.length_take, hlen]
    omega
  have hbuf : (runBytes initState bs).rx_buf = bs.take 31 ++ cNull :: [] := by
    rw [hb, hlen]
    norm_num [MSG_SIZE]
  have hset : (runBytes initState bs).rx_buf.set 31 cNull = bs.take 31 ++ [cNull] := by
    rw [hbuf]
    have hsc := set_append_cons (bs.take 31) cNull [] cNull
    rw [h31] at hsc
    exact hsc
  rw [runBytes_append]
  unfold serial_cb serial_cb_writes
  rw [if_pos (Or.inl rfl), if_neg (by rw [hp31]; omega)]
  refine ⟨?_, ?_, fun s c hc h1 h2 => serial_cb_discard hc h1 h2⟩
  · simp only [hp31, hset, hq, List.length_nil, List.nil_append]
    norm_num
  · simp only [he, List.append_assoc]

/-- Witness for C6 with forty letters a. -/
theorem C6_overflow_truncates_witness :
    (runBytes initState (List.replicate 40 'a' ++ ['\n'])).uart_msgq =
      [(List.replicate 40 'a').take 31 ++ [cNull]] :=
  (C6_overflow_truncates (List.replicate 40 'a') (by decide) (by decide)).1

/-- C7: the driving loop body as written, with its second call of
eval_expression on failure, produces the same response as a single
evaluation inspected through the three-way tagged outcome, for every
input line. -/
theorem C7_double_eval_refines_single :
    ∀ line : List Char, loop_body line = loop_body_single line := by
  intro line
  unfold loop_body loop_body_single
  rcases hev : eval_expression line 0 with ⟨code, r⟩ | _
  · rcases eq_or_ne code ERR_NONE with h0 | h0
    · simp [h0]
    · have hr : r = 0 := eval_err_result hev h0
      subst hr
      dsimp only []
      simp only [if_neg h0]
      rw [hev]
  · rfl

/-- C8: whitespace around the operator and at the line ends is tolerated:
the three sample lines all succeed with result 8. -/
theorem C8_whitespace_tolerated (r0 : Int) :
    eval_expression ("5+3".data) r0 = .ret ERR_NONE 8 ∧
    eval_expression (" 5 + 3 ".data) r0 = .ret ERR_NONE 8 ∧
    eval_expression ("5   +   3".data) r0 = .ret ERR_NONE 8 :=
  ⟨rfl, rfl, rfl⟩

/-- C9: after any boot-reachable history and any next byte, the cursor
stays within 0..31, and every store of that step hits an index below 32,
with index 31 receiving only the null terminator: no rx_buf write is out
of bounds. -/
theorem C9_writes_in_bounds (bs : List Char) (c : Char) :
    (runBytes initState bs).rx_buf_pos ≤ MSG_SIZE - 1 ∧
    (serial_cb (runBytes initState bs) c).rx_buf_pos ≤ MSG_SIZE - 1 ∧
    ∀ w ∈ (serial_cb_writes (runBytes initState bs) c).1,
      w.1 < MSG_SIZE ∧ (w.1 = MSG_SIZE - 1 → w.2 = cNull) :=
  ⟨runBytes_pos_le bs, serial_cb_pos_le c (runBytes_pos_le bs),
   serial_cb_writes_bound c (runBytes_pos_le bs)⟩

/-- Witness for C9: the terminator write after the two bytes ab. -/
theorem C9_writes_in_bounds_witness :
    ((2, cNull) : Nat × Char).1 < MSG_SIZE ∧
    (((2, cNull) : Nat × Char).1 = MSG_SIZE - 1 → ((2, cNull) : Nat × Char).2 = cNull) :=
  (C9_writes_in_bounds ("ab".data) '\n').2.2 (2, cNull) (by decide)

/-- C10: whenever eval_expression returns a nonzero error code, the int
behind the result pointer keeps its entry value: it is written only on
the success path. -/
theorem C10_result_untouched_on_error (line : List Char) (r0 code r : Int)
    (h : eval_expression line r0 = .ret code r) (hc : code ≠ ERR_NONE) :
    r = r0 :=
  eval_err_result h hc

/-- Witness for C10 on the invalid line abc with entry value 7. -/
theorem C10_result_untouched_on_error_witness :
    eval_expression ("abc".data) 7 = .ret ERR_INVALID_EXPR 7 ∧ (7 : Int) = 7 :=
  ⟨by decide,
   C10_result_untouched_on_error ("abc".data) 7 ERR_INVALID_EXPR 7 (by decide) (by decide)⟩
